import Mathlib

/-!
Verification of the response-normalization logic of the AI cost estimator
(`src/components/AICostEstimator.tsx`).

The embedding works over `List Char` (JS strings).  The brace characters
are referred to through the named constants `lbrace` and `rbrace`.
-/

set_option autoImplicit false

/-- The character `\x7b` (opening curly brace). -/
def lbrace : Char := Char.ofNat 123

/-- The character `\x7d` (closing curly brace). -/
def rbrace : Char := Char.ofNat 125

/-- JSON values as produced by `JSON.parse`.  Numbers are kept exactly as
parsed, as a decimal mantissa and a power-of-ten exponent (the source only
ever handles small literals, so IEEE-754 rounding is not modelled). -/
inductive Json where
  | null : Json
  | bool (b : Bool) : Json
  | num (mant : Int) (exp10 : Int) : Json
  | str (s : List Char) : Json
  | arr (elems : List Json) : Json
  | obj (fields : List (List Char × Json)) : Json

/-- Embeds the search of the regular expression `/[\x7b][^]*[\x7d]/`:
`some p` when `c` occurs in `l`, where `p` is the prefix of `l` ending at
the last occurrence of `c` (the greedy star runs to the last `c`). -/
def takeToLast (c : Char) : List Char → Option (List Char)
  | [] => none
  | x :: xs =>
    match takeToLast c xs with
    | some t => some (x :: t)
    | none => if x = c then some [x] else none

/-- Leftmost match of the regex: scan for a `lbrace` that is followed by a
later `rbrace`; the match runs greedily to the last `rbrace`.  This embeds
`str.match(...)` at line 10 of the source. -/
def regexMatchBraces : List Char → Option (List Char)
  | [] => none
  | x :: xs =>
    if x = lbrace then
      match takeToLast rbrace xs with
      | some t => some (x :: t)
      | none => regexMatchBraces xs
    else regexMatchBraces xs

/-- Whitespace as matched by the regex class `\s` (ASCII part; the inputs
handled by the estimator contain only spaces, tabs and newlines). -/
def jsSpace (c : Char) : Bool :=
  c = ' ' || c = '\t' || c = '\n' || c = '\r'

/-- Helper for the line-comment strip: the `Bool` records whether we are
currently inside a `//` comment (skipping to the end of the line). -/
def stripCommentsGo : Bool → List Char → List Char
  | _, [] => []
  | true, c :: cs =>
    if c = '\n' then '\n' :: stripCommentsGo false cs
    else stripCommentsGo true cs
  | false, c :: cs =>
    if c = '/' then
      match cs with
      | d :: cs2 =>
        if d = '/' then stripCommentsGo true cs2
        else c :: d :: stripCommentsGo false cs2
      | [] => [c]
    else c :: stripCommentsGo false cs

/-- Embeds `.replace(/\/\/.*$/gm, ...)` with the empty replacement: on
each line, everything from the first `//` onwards is deleted (`.` does not
cross the newline, which is kept). -/
def stripLineComments (s : List Char) : List Char :=
  stripCommentsGo false s

/-- Helper for the trailing-comma replacements.  The `Option` state holds
the run of whitespace (reversed) consumed after a pending comma: the scan
mirrors the left-to-right global replace of a comma, optional whitespace
and the closing character by the closing character alone. -/
def rccGo (close : Char) : Option (List Char) → List Char → List Char
  | none, [] => []
  | some ws, [] => ',' :: ws.reverse
  | none, c :: cs =>
    if c = ',' then rccGo close (some []) cs
    else c :: rccGo close none cs
  | some ws, c :: cs =>
    if c = close then close :: rccGo close none cs
    else if jsSpace c then rccGo close (some (c :: ws)) cs
    else if c = ',' then ',' :: ws.reverse ++ rccGo close (some []) cs
    else ',' :: ws.reverse ++ (c :: rccGo close none cs)

/-- Embeds the global replace of a comma followed by whitespace and the
closing character `close` by `close` alone (lines 17 and 18 of the
source, with `close` being the closing brace and bracket). -/
def replaceCommaClose (close : Char) (s : List Char) : List Char :=
  rccGo close none s

/-- The three textual repairs of lines 15-18 of the source, in order:
strip line comments, remove trailing commas before a closing brace,
remove trailing commas before a closing bracket. -/
def cleanJSON (s : List Char) : List Char :=
  replaceCommaClose ']' (replaceCommaClose rbrace (stripLineComments s))

/-- JSON whitespace (as skipped by `JSON.parse`). -/
def skipWs : List Char → List Char
  | [] => []
  | c :: cs => if jsSpace c then skipWs cs else c :: cs

/-- Value of a hexadecimal digit (code points: 48-57 are the decimal
digits, 97-102 lowercase a-f, 65-70 uppercase A-F). -/
def hexVal (c : Char) : Option Nat :=
  let n := c.toNat
  if 48 ≤ n && n ≤ 57 then some (n - 48)
  else if 97 ≤ n && n ≤ 102 then some (n - 87)
  else if 65 ≤ n && n ≤ 70 then some (n - 55)
  else none

/-- Single-character JSON string escapes. -/
def escChar (e : Char) : Option Char :=
  if e = '"' then some '"'
  else if e = '\\' then some '\\'
  else if e = '/' then some '/'
  else if e = 'b' then some (Char.ofNat 8)
  else if e = 'f' then some (Char.ofNat 12)
  else if e = 'n' then some '\n'
  else if e = 'r' then some (Char.ofNat 13)
  else if e = 't' then some '\t'
  else none

/-- Parses the body of a JSON string after the opening quote: returns the
decoded content and the remaining input after the closing quote.  Raw
control characters and unterminated strings are rejected, as by
`JSON.parse`. -/
def parseStringBody : List Char → Option (List Char × List Char)
  | [] => none
  | c :: cs =>
    if c = '"' then some ([], cs)
    else if c = '\\' then
      match cs with
      | [] => none
      | e :: cs2 =>
        if e = 'u' then
          match cs2 with
          | h1 :: h2 :: h3 :: h4 :: cs3 =>
            match hexVal h1, hexVal h2, hexVal h3, hexVal h4 with
            | some a, some b, some c2, some d =>
              match parseStringBody cs3 with
              | some (t, r) =>
                some (Char.ofNat (((a * 16 + b) * 16 + c2) * 16 + d) :: t, r)
              | none => none
            | _, _, _, _ => none
          | _ => none
        else
          match escChar e with
          | some ch =>
            match parseStringBody cs2 with
            | some (t, r) => some (ch :: t, r)
            | none => none
          | none => none
    else if c.toNat < 32 then none
    else
      match parseStringBody cs with
      | some (t, r) => some (c :: t, r)
      | none => none

/-- Decimal digit test. -/
def digit? (c : Char) : Bool := '0' ≤ c && c ≤ '9'

/-- Appends the value of a digit string to an accumulator. -/
def digitsToNat : List Char → Nat → Nat
  | [], acc => acc
  | c :: cs, acc => digitsToNat cs (acc * 10 + (c.toNat - '0'.toNat))

/-- Parses the optional fraction and exponent of a JSON number literal
whose integer part has value `intVal` (with sign `neg`).  A dot or `e`
not followed by a digit is left unconsumed, exactly as the real tokenizer
would stop the number token there (the leftover then fails in context). -/
def parseNumTail (intVal : Nat) (neg : Bool) (s : List Char) :
    (Int × Int) × List Char :=
  let fracStep : Nat × Int × List Char :=
    match s with
    | c :: cs =>
      if c = '.' then
        match cs.takeWhile digit? with
        | [] => (intVal, 0, s)
        | ds => (digitsToNat ds intVal, -(Int.ofNat ds.length), cs.dropWhile digit?)
      else (intVal, 0, s)
    | [] => (intVal, 0, s)
  match fracStep with
  | (m1, e1, s2) =>
    let expStep : Int × List Char :=
      match s2 with
      | c :: cs =>
        if c = 'e' || c = 'E' then
          let signStep : Int × List Char :=
            match cs with
            | d :: ds =>
              if d = '+' then (1, ds)
              else if d = '-' then (-1, ds)
              else (1, cs)
            | [] => (1, cs)
          match signStep with
          | (esign, cs2) =>
            match cs2.takeWhile digit? with
            | [] => (0, s2)
            | ds => (esign * Int.ofNat (digitsToNat ds 0), cs2.dropWhile digit?)
        else (0, s2)
      | [] => (0, s2)
    match expStep with
    | (e2, s3) =>
      ((if neg then -(Int.ofNat m1) else Int.ofNat m1, e1 + e2), s3)

/-- Parses a JSON number literal: optional minus, an integer part that is
`0` or starts with a nonzero digit, then `parseNumTail`. -/
def parseNumber (s : List Char) : Option ((Int × Int) × List Char) :=
  let signStep : Bool × List Char :=
    match s with
    | c :: cs => if c = '-' then (true, cs) else (false, s)
    | [] => (false, s)
  match signStep with
  | (neg, s1) =>
    match s1 with
    | [] => none
    | c :: cs =>
      if c = '0' then some (parseNumTail 0 neg cs)
      else if digit? c then
        some (parseNumTail (digitsToNat (c :: cs.takeWhile digit?) 0) neg
          (cs.dropWhile digit?))
      else none

mutual

/-- Fuel-indexed recursive-descent parser for a JSON value; leading
whitespace is skipped.  Embeds the grammar accepted by `JSON.parse`. -/
def parseValue : Nat → List Char → Option (Json × List Char)
  | 0, _ => none
  | Nat.succ fuel, s0 =>
    let s := skipWs s0
    match s with
    | [] => none
    | c :: cs =>
      if c = lbrace then parseObjBody fuel (skipWs cs)
      else if c = '[' then parseArrBody fuel (skipWs cs)
      else if c = '"' then
        match parseStringBody cs with
        | some (t, rest) => some (Json.str t, rest)
        | none => none
      else if s.take 4 == "true".toList then some (Json.bool true, s.drop 4)
      else if s.take 5 == "false".toList then some (Json.bool false, s.drop 5)
      else if s.take 4 == "null".toList then some (Json.null, s.drop 4)
      else
        match parseNumber s with
        | some ((m, e), rest) => some (Json.num m e, rest)
        | none => none

/-- After an opening brace (and whitespace): an empty object or the first
member. -/
def parseObjBody : Nat → List Char → Option (Json × List Char)
  | 0, _ => none
  | Nat.succ fuel, s =>
    match s with
    | [] => none
    | c :: cs =>
      if c = rbrace then some (Json.obj [], cs)
      else parseMembers fuel s []

/-- Members of an object: a quoted key, a colon, a value, then either a
comma and more members or the closing brace. -/
def parseMembers : Nat → List Char → List (List Char × Json) →
    Option (Json × List Char)
  | 0, _, _ => none
  | Nat.succ fuel, s, acc =>
    match s with
    | [] => none
    | c :: cs =>
      if c = '"' then
        match parseStringBody cs with
        | some (key, r1) =>
          match skipWs r1 with
          | [] => none
          | d :: r2 =>
            if d = ':' then
              match parseValue fuel r2 with
              | some (v, r3) =>
                match skipWs r3 with
                | [] => none
                | d2 :: r4 =>
                  if d2 = ',' then parseMembers fuel (skipWs r4) (acc ++ [(key, v)])
                  else if d2 = rbrace then some (Json.obj (acc ++ [(key, v)]), r4)
                  else none
              | none => none
            else none
        | none => none
      else none

/-- After an opening bracket (and whitespace): an empty array or the
first element. -/
def parseArrBody : Nat → List Char → Option (Json × List Char)
  | 0, _ => none
  | Nat.succ fuel, s =>
    match s with
    | [] => none
    | c :: cs =>
      if c = ']' then some (Json.arr [], cs)
      else parseElems fuel s []

/-- Elements of an array: a value, then either a comma and more elements
or the closing bracket. -/
def parseElems : Nat → List Char → List Json → Option (Json × List Char)
  | 0, _, _ => none
  | Nat.succ fuel, s, acc =>
    match parseValue fuel s with
    | some (v, r1) =>
      match skipWs r1 with
      | [] => none
      | d :: r2 =>
        if d = ',' then parseElems fuel r2 (acc ++ [v])
        else if d = ']' then some (Json.arr (acc ++ [v]), r2)
        else none
    | none => none

end

/-- Embeds `JSON.parse`: parse one value and require only whitespace to
remain; `none` models the thrown `SyntaxError` (which the source catches
at lines 20-25).  The fuel is an upper bound on the recursion depth of
the descent, generous enough for any input of this length. -/
def jsonParse (s : List Char) : Option Json :=
  match parseValue (4 * (s.length + 1)) s with
  | some (v, rest) => if skipWs rest == [] then some v else none
  | none => none

/-- A thrown JS value as seen by the catch handler at lines 116-118: an
`Error` instance carrying a message, or any other value. -/
inductive Thrown where
  | err (msg : List Char) : Thrown
  | nonError : Thrown

/-- Embeds `extractAndParseJSON` (lines 9-26): regex extraction (throwing
when there is no match), textual repair, then `JSON.parse` with the
`SyntaxError` caught and turned into a `null` return (`Option.none`). -/
def extractAndParseJSON (s : List Char) : Except Thrown (Option Json) :=
  match regexMatchBraces s with
  | none => Except.error (Thrown.err "JSON object not found.".toList)
  | some m => Except.ok (jsonParse (cleanJSON m))

/-- JS property access on a parsed JSON value: `none` models `undefined`.
On duplicate keys `JSON.parse` keeps the last occurrence, hence the
reversed search. -/
def jget (j : Json) (k : List Char) : Option Json :=
  match j with
  | Json.obj fs =>
    match fs.reverse.find? (fun p => p.fst == k) with
    | some p => some p.snd
    | none => none
  | _ => none

/-- JS truthiness of a value (`none` is `undefined`).  `NaN` cannot arise
from `JSON.parse` output and is not modelled. -/
def truthy : Option Json → Bool
  | none => false
  | some Json.null => false
  | some (Json.bool b) => b
  | some (Json.num m _) => !(m == 0)
  | some (Json.str s) => !s.isEmpty
  | some (Json.arr _) => true
  | some (Json.obj _) => true

/-- The JS `||` operator: the left operand when truthy, else the right. -/
def jsOr (a b : Option Json) : Option Json :=
  if truthy a then a else b

/-- Models `crypto.randomUUID()` as a fresh-identifier supply: the `n`-th
generated identifier.  Distinct indices give distinct non-empty
identifiers, which is the only property the source relies on. -/
def genId (n : Nat) : List Char :=
  List.replicate (n + 1) 'u'

/-- The `Material` record built at lines 98-103.  Field values are JS
values (`none` = `undefined`): the source copies whatever the parsed
object held, only defaulting the `||`-guarded fields. -/
structure Material where
  id : Option Json
  name : Option Json
  unit : Option Json
  costPerUnit : Option Json
  quantity : Option Json
  description : Option Json

/-- The `LaborItem` record built at lines 106-110. -/
structure LaborItem where
  id : Option Json
  role : Option Json
  costPerHour : Option Json
  hours : Option Json
  description : Option Json

/-- Embeds the material arrow function at lines 97-104, with `fresh` the
identifier `crypto.randomUUID()` would return for this element. -/
def mapMaterial (fresh : List Char) (m : Json) : Material where
  id := jsOr (jget m "materialId".toList) (some (Json.str fresh))
  name := jsOr (jget m "name".toList) (some (Json.str "Material".toList))
  unit := jsOr (jget m "unit".toList) (some (Json.str "unit".toList))
  costPerUnit := jsOr (jget m "costPerUnit".toList) (some (Json.num 0 0))
  quantity := jget m "quantity".toList
  description := jsOr (jget m "description".toList) (some (Json.str []))

/-- Embeds the labor arrow function at lines 105-111. -/
def mapLaborItem (fresh : List Char) (l : Json) : LaborItem where
  id := jsOr (jget l "laborId".toList) (some (Json.str fresh))
  role := jsOr (jget l "role".toList) (some (Json.str "Labor".toList))
  costPerHour := jsOr (jget l "costPerHour".toList) (some (Json.num 0 0))
  hours := jget l "hours".toList
  description := jsOr (jget l "description".toList) (some (Json.str []))

/-- `parsedEstimation.materials.map(...)` with the fresh-id supply
threaded from index `n`. -/
def mapMaterials (n : Nat) : List Json → List Material
  | [] => []
  | m :: ms => mapMaterial (genId n) m :: mapMaterials (n + 1) ms

/-- `parsedEstimation.labor.map(...)` with the fresh-id supply threaded
from index `n`. -/
def mapLabor (n : Nat) : List Json → List LaborItem
  | [] => []
  | l :: ls => mapLaborItem (genId n) l :: mapLabor (n + 1) ls

/-- The `ProjectDetails` record of lines 92-112: the top-level fields are
copied verbatim (JS values, `none` = `undefined`). -/
structure ProjectDetails where
  projectName : Option Json
  length : Option Json
  width : Option Json
  height : Option Json
  materials : List Material
  labor : List LaborItem

/-- Message of the TypeError thrown by reading a property of `null`
(text abridged from the V8 wording; only its identity as an Error message
distinct from the app fallback matters). -/
def nullReadMsg (field : List Char) : List Char :=
  "Cannot read properties of null (reading ".toList ++ field ++ ")".toList

/-- Message of the TypeError thrown by reading a property of
`undefined`. -/
def undefReadMsg (field : List Char) : List Char :=
  "Cannot read properties of undefined (reading ".toList ++ field ++ ")".toList

/-- Message of the TypeError thrown by calling `.map` on a non-array
member of the parsed object. -/
def notAFunctionMsg (field : List Char) : List Char :=
  "parsedEstimation.".toList ++ field ++ ".map is not a function".toList

/-- Embeds the construction of `transformedEstimation` (lines 92-112) on
the result of `extractAndParseJSON`.  `none` is the JS `null` returned on
parse failure: the first property read on it (`.projectName`, evaluated
first in the object literal) throws.  A missing or non-array `materials`
or `labor` makes the corresponding `.map` call throw. -/
def transformEstimation (parsed : Option Json) : Except Thrown ProjectDetails :=
  match parsed with
  | none => Except.error (Thrown.err (nullReadMsg "projectName".toList))
  | some Json.null => Except.error (Thrown.err (nullReadMsg "projectName".toList))
  | some j =>
    match jget j "materials".toList with
    | some (Json.arr ms) =>
      match jget j "labor".toList with
      | some (Json.arr ls) =>
        Except.ok
          { projectName := jget j "projectName".toList
            length := jget j "length".toList
            width := jget j "width".toList
            height := jget j "height".toList
            materials := mapMaterials 0 ms
            labor := mapLabor ms.length ls }
      | some Json.null => Except.error (Thrown.err (nullReadMsg "map".toList))
      | none => Except.error (Thrown.err (undefReadMsg "map".toList))
      | some _ => Except.error (Thrown.err (notAFunctionMsg "labor".toList))
    | some Json.null => Except.error (Thrown.err (nullReadMsg "map".toList))
    | none => Except.error (Thrown.err (undefReadMsg "map".toList))
    | some _ => Except.error (Thrown.err (notAFunctionMsg "materials".toList))

/-- The fallback message of the catch handler at line 117. -/
def fallbackMsg : List Char :=
  "Failed to analyze project. Please try again.".toList

/-- The catch handler of lines 116-118:
`err instanceof Error ? err.message : fallback`. -/
def displayMsg : Thrown → List Char
  | Thrown.err m => m
  | Thrown.nonError => fallbackMsg

/-- The observable outcome of one run of `analyzeProject`: the final UI
state after the `finally` block, plus the list of callback invocations
(`onEstimationComplete`). -/
structure RunState where
  isLoading : Bool
  error : List Char
  estimation : Option ProjectDetails
  callbackCalls : List ProjectDetails

/-- The body of the `try` block of `analyzeProject` (lines 38-115),
after the network call (which is abstracted as the given raw response):
extract-and-parse, then transform; the first thrown error aborts the
block. -/
def runEstimation (raw : List Char) : Except Thrown ProjectDetails :=
  match extractAndParseJSON raw with
  | Except.error t => Except.error t
  | Except.ok parsed => transformEstimation parsed

/-- Embeds one run of `analyzeProject` (lines 33-122) from the raw text
the model returned.  On success the estimation is stored and the callback
invoked once with the same record; any thrown error is caught by the
single handler and displayed. -/
def analyzeProject (raw : List Char) : RunState :=
  match runEstimation raw with
  | Except.error t =>
    { isLoading := false, error := displayMsg t, estimation := none,
      callbackCalls := [] }
  | Except.ok t =>
    { isLoading := false, error := [], estimation := some t,
      callbackCalls := [t] }

theorem takeToLast_of_not_mem {c : Char} {l : List Char} (h : c ∉ l) :
    takeToLast c l = none := by
  induction l with
  | nil => rfl
  | cons x xs ih =>
    rw [List.mem_cons, not_or] at h
    simp only [takeToLast, ih h.2]
    exact if_neg (fun e => h.1 e.symm)

theorem takeToLast_append {c : Char} {b t : List Char} (h : c ∉ t) :
    takeToLast c (b ++ c :: t) = some (b ++ [c]) := by
  induction b with
  | nil =>
    simp only [List.nil_append, takeToLast, takeToLast_of_not_mem h, if_pos rfl,
      if_true]
  | cons x xs ih =>
    simp only [List.cons_append, takeToLast, List.append_eq, ih]

theorem regexMatchBraces_append_left {a : List Char} (s : List Char)
    (h : lbrace ∉ a) : regexMatchBraces (a ++ s) = regexMatchBraces s := by
  induction a with
  | nil => rfl
  | cons x xs ih =>
    rw [List.mem_cons, not_or] at h
    simp only [List.cons_append, regexMatchBraces, List.append_eq,
      if_neg (Ne.symm h.1), ih h.2]

theorem regexMatchBraces_eq_none {s : List Char}
    (h : ∀ x y, s = x ++ lbrace :: y → rbrace ∉ y) :
    regexMatchBraces s = none := by
  induction s with
  | nil => rfl
  | cons x xs ih =>
    have ihh : ∀ u v, xs = u ++ lbrace :: v → rbrace ∉ v :=
      fun u v huv => h (x :: u) v (by rw [huv, List.cons_append])
    by_cases hx : x = lbrace
    · have h0 : rbrace ∉ xs := h [] xs (by simp [hx])
      simp only [regexMatchBraces, if_pos hx, takeToLast_of_not_mem h0, ih ihh]
    · simp only [regexMatchBraces, if_neg hx, ih ihh]

/-- Claim C1: the extraction step selects exactly the substring running
from the first opening brace to the last closing brace of the raw text
(the first conjunct: the shown opening brace is the first since `a` holds
none, and the shown closing brace is the last since `c` holds none), and
when no opening brace is followed by a later closing brace the function
raises the "JSON object not found." error instead of producing a
candidate (second conjunct). -/
theorem extractFirstToLast (a b c s : List Char) :
    (lbrace ∉ a → rbrace ∉ c →
      regexMatchBraces (a ++ lbrace :: (b ++ rbrace :: c)) =
        some (lbrace :: (b ++ [rbrace]))) ∧
    ((∀ x y, s = x ++ lbrace :: y → rbrace ∉ y) →
      extractAndParseJSON s =
        Except.error (Thrown.err "JSON object not found.".toList)) := by
  constructor
  · intro ha hc
    rw [regexMatchBraces_append_left _ ha]
    simp only [regexMatchBraces, if_pos rfl, takeToLast_append hc, if_true]
  · intro h
    simp only [extractAndParseJSON, regexMatchBraces_eq_none h]

/-- Witness for C1 at concrete inputs: prose around a span, and an input
with no brace span at all. -/
theorem extractFirstToLast_spot :
    regexMatchBraces ("text ".toList ++ lbrace ::
        ("\"k\": 1".toList ++ rbrace :: " tail".toList)) =
      some (lbrace :: ("\"k\": 1".toList ++ [rbrace])) ∧
    extractAndParseJSON "no json here".toList =
      Except.error (Thrown.err "JSON object not found.".toList) := by
  constructor
  · exact (extractFirstToLast "text ".toList "\"k\": 1".toList " tail".toList
      []).1 (by decide) (by decide)
  · refine (extractFirstToLast [] [] [] "no json here".toList).2 ?_
    intro x y hxy
    have hmem : lbrace ∈ "no json here".toList := by
      rw [hxy]
      exact List.mem_append_right x (List.mem_cons_self _ _)
    exact absurd hmem (by decide)

/-- Helper for the balanced-span predicate: `d` open braces are pending
(`d` is at least 1) and the remaining text must close the first of them
exactly at its end. -/
def spanFrom : Nat → List Char → Bool
  | _, [] => false
  | d, c :: cs =>
    if c = lbrace then spanFrom (d + 1) cs
    else if c = rbrace then
      if d = 1 then cs.isEmpty else spanFrom (d - 1) cs
    else spanFrom d cs

/-- A balanced brace span: an opening brace whose matching closing brace
is the final character. -/
def isBalancedSpan (s : List Char) : Bool :=
  match s with
  | c :: cs => c == lbrace && spanFrom 1 cs
  | [] => false

theorem spanFrom_split {l : List Char} : ∀ {d : Nat},
    spanFrom d l = true → ∃ b, l = b ++ [rbrace] := by
  induction l with
  | nil => intro d h; exact absurd h (by simp [spanFrom])
  | cons c cs ih =>
    intro d h
    rw [spanFrom] at h
    by_cases h1 : c = lbrace
    · rw [if_pos h1] at h
      obtain ⟨b, hb⟩ := ih h
      exact ⟨c :: b, by rw [hb, List.cons_append]⟩
    · rw [if_neg h1] at h
      by_cases h2 : c = rbrace
      · rw [if_pos h2] at h
        by_cases h3 : d = 1
        · rw [if_pos h3] at h
          have hnil : cs = [] := by
            cases cs with
            | nil => rfl
            | cons y ys => exact absurd h (by simp)
          exact ⟨[], by rw [hnil, h2]; rfl⟩
        · rw [if_neg h3] at h
          obtain ⟨b, hb⟩ := ih h
          exact ⟨c :: b, by rw [hb, List.cons_append]⟩
      · rw [if_neg h2] at h
        obtain ⟨b, hb⟩ := ih h
        exact ⟨c :: b, by rw [hb, List.cons_append]⟩

/-- Claim C6: when the input text is a single balanced brace span
surrounded by arbitrary prose — prose being text that contains no brace
characters, so that the balanced span is the only brace material — the
extraction step selects exactly that balanced substring. -/
theorem extractUniqueSpan (pre s post : List Char)
    (hbal : isBalancedSpan s = true)
    (hpre1 : lbrace ∉ pre) (hpre2 : rbrace ∉ pre)
    (hpost1 : lbrace ∉ post) (hpost2 : rbrace ∉ post) :
    regexMatchBraces (pre ++ s ++ post) = some s := by
  obtain ⟨t, rfl⟩ : ∃ t, s = lbrace :: t := by
    cases s with
    | nil => exact absurd hbal (by simp [isBalancedSpan])
    | cons c cs =>
      rw [isBalancedSpan, Bool.and_eq_true, beq_iff_eq] at hbal
      exact ⟨cs, by rw [hbal.1]⟩
  have hsp : spanFrom 1 t = true := by
    rw [isBalancedSpan, Bool.and_eq_true] at hbal
    exact hbal.2
  obtain ⟨b, rfl⟩ := spanFrom_split hsp
  have hre : pre ++ (lbrace :: (b ++ [rbrace])) ++ post =
      pre ++ (lbrace :: (b ++ rbrace :: post)) := by simp
  rw [hre, regexMatchBraces_append_left _ hpre1]
  simp only [regexMatchBraces, if_pos rfl, takeToLast_append hpost2, if_true]

/-- Witness for C6 at a concrete prose-wrapped object. -/
theorem extractUniqueSpan_spot :
    regexMatchBraces ("Sure, here it is: ".toList ++
        "\x7b\"projectName\": \"Shed\"\x7d".toList ++ " hope it helps!".toList) =
      some "\x7b\"projectName\": \"Shed\"\x7d".toList :=
  extractUniqueSpan "Sure, here it is: ".toList
    "\x7b\"projectName\": \"Shed\"\x7d".toList " hope it helps!".toList
    (by decide) (by decide) (by decide) (by decide) (by decide)

/-- Claim C2: the parse step, given malformed JSON (here an unterminated
string), yields the null outcome `none` rather than raising (first
conjunct); whenever extraction succeeds the whole function returns
normally with the parse result — the raised-error behaviour is reserved
for the extraction step (second conjunct). -/
theorem parseSoftFail :
    jsonParse "\x7b\"a\": \"b\x7d".toList = none ∧
    ∀ s m, regexMatchBraces s = some m →
      extractAndParseJSON s = Except.ok (jsonParse (cleanJSON m)) := by
  refine ⟨by rfl, ?_⟩
  intro s m h
  simp only [extractAndParseJSON, h]

/-- Witness for C2: on the unterminated-string input the extraction
succeeds and the function returns normally (with the null outcome). -/
theorem parseSoftFail_spot :
    extractAndParseJSON "\x7b\"a\": \"b\x7d".toList =
      Except.ok (jsonParse (cleanJSON "\x7b\"a\": \"b\x7d".toList)) :=
  parseSoftFail.2 _ _ (by rfl)

/-- Claim C3: mapping the parsed material object holding only the field
quantity = 5 yields a `Material` with placeholder name "Material", unit
"unit", cost per unit 0, empty description, quantity 5, and a freshly
generated non-empty id. -/
theorem defaultSubstitution (n : Nat) :
    mapMaterials n [Json.obj [("quantity".toList, Json.num 5 0)]] =
      [{ id := some (Json.str (genId n)),
         name := some (Json.str "Material".toList),
         unit := some (Json.str "unit".toList),
         costPerUnit := some (Json.num 0 0),
         quantity := some (Json.num 5 0),
         description := some (Json.str []) }] ∧
    genId n ≠ [] := by
  refine ⟨rfl, ?_⟩
  intro h
  have hl := congrArg List.length h
  simp [genId] at hl

/-- Claim C4: the only id lookup reads `materialId` (resp. `laborId`);
whenever that field is absent from the parsed object — as it always is
under the documented output schema, even when the object carries an `id`
field — the produced id is the freshly generated one. -/
theorem alwaysGenerateIds (m l : Json) (n k : Nat)
    (hm : jget m "materialId".toList = none)
    (hl : jget l "laborId".toList = none) :
    (mapMaterial (genId n) m).id = some (Json.str (genId n)) ∧
    (mapLaborItem (genId k) l).id = some (Json.str (genId k)) := by
  constructor
  · show jsOr (jget m "materialId".toList) (some (Json.str (genId n))) =
      some (Json.str (genId n))
    rw [hm]
    rfl
  · show jsOr (jget l "laborId".toList) (some (Json.str (genId k))) =
      some (Json.str (genId k))
    rw [hl]
    rfl

/-- Witness for C4: parsed objects that do carry an `id` field still get
the generated identifier. -/
theorem alwaysGenerateIds_spot :
    (mapMaterial (genId 0) (Json.obj [("id".toList, Json.str "m-1".toList),
        ("quantity".toList, Json.num 5 0)])).id = some (Json.str (genId 0)) ∧
    (mapLaborItem (genId 1) (Json.obj [("id".toList, Json.str "l-1".toList),
        ("hours".toList, Json.num 8 0)])).id = some (Json.str (genId 1)) :=
  alwaysGenerateIds _ _ 0 1 (by rfl) (by rfl)

/-- Claim C7: the repair step applied to the candidate containing a line
comment and a trailing comma strips both; the repaired text parses to the
same JSON value as the clean form (and that value is the two-field
object). -/
theorem commentTrailingCommaRepair :
    cleanJSON "\x7b\"a\": 1, // comment\n \"b\": 2,\x7d".toList =
      "\x7b\"a\": 1, \n \"b\": 2\x7d".toList ∧
    jsonParse (cleanJSON "\x7b\"a\": 1, // comment\n \"b\": 2,\x7d".toList) =
      jsonParse "\x7b\"a\":1,\"b\":2\x7d".toList ∧
    jsonParse (cleanJSON "\x7b\"a\": 1, // comment\n \"b\": 2,\x7d".toList) =
      some (Json.obj [("a".toList, Json.num 1 0), ("b".toList, Json.num 2 0)]) :=
  ⟨rfl, rfl, rfl⟩

theorem mapMaterials_length (n : Nat) (ms : List Json) :
    (mapMaterials n ms).length = ms.length := by
  induction ms generalizing n with
  | nil => rfl
  | cons m ms ih => simp [mapMaterials, ih]

theorem mapMaterials_ids (n : Nat) (ms : List Json)
    (h : ∀ m ∈ ms, jget m "materialId".toList = none) :
    (mapMaterials n ms).map Material.id =
      (List.range ms.length).map (fun i => some (Json.str (genId (n + i)))) := by
  induction ms generalizing n with
  | nil => rfl
  | cons m ms ih =>
    have h0 := h m (List.mem_cons_self _ _)
    have hrest : ∀ x ∈ ms, jget x "materialId".toList = none :=
      fun x hx => h x (List.mem_cons_of_mem _ hx)
    rw [List.length_cons, List.range_succ_eq_map, List.map_cons]
    simp only [mapMaterials, List.map_cons, List.map_map]
    congr 1
    · show jsOr (jget m "materialId".toList) (some (Json.str (genId n))) =
        some (Json.str (genId (n + 0)))
      rw [h0]
      rfl
    · rw [ih (n + 1) hrest]
      apply List.map_congr_left
      intro i _
      show some (Json.str (genId (n + 1 + i))) =
        some (Json.str (genId (n + (i + 1))))
      have hadd : n + 1 + i = n + (i + 1) := by omega
      rw [hadd]

/-- Claim C8: mapping a list of N parsed materials, each lacking an id
(no `id` field and no `materialId` field, so every identifier is freshly
generated), produces N `Material` records whose ids are pairwise
distinct.  The random generator `crypto.randomUUID()` is modelled by the
fresh-id supply `genId`. -/
theorem generatedIdsDistinct (n : Nat) (ms : List Json)
    (h : ∀ m ∈ ms, jget m "id".toList = none ∧
      jget m "materialId".toList = none) :
    ((mapMaterials n ms).map Material.id).Pairwise (· ≠ ·) ∧
    (mapMaterials n ms).length = ms.length := by
  have h2 : ∀ m ∈ ms, jget m "materialId".toList = none :=
    fun m hm => (h m hm).2
  refine ⟨?_, mapMaterials_length n ms⟩
  rw [mapMaterials_ids n ms h2, List.pairwise_map]
  refine (List.pairwise_lt_range ms.length).imp ?_
  intro i j hij he
  have hgen : genId (n + i) = genId (n + j) :=
    Json.str.inj (Option.some.inj he)
  have hlen := congrArg List.length hgen
  simp only [genId, List.length_replicate] at hlen
  omega

/-- Witness for C8 at a concrete three-element material list. -/
theorem generatedIdsDistinct_spot :
    ((mapMaterials 0 [Json.obj [("name".toList, Json.str "Cement".toList)],
        Json.obj [], Json.obj [("quantity".toList, Json.num 2 0)]]).map
      Material.id).Pairwise (· ≠ ·) ∧
    (mapMaterials 0 [Json.obj [("name".toList, Json.str "Cement".toList)],
        Json.obj [], Json.obj [("quantity".toList, Json.num 2 0)]]).length = 3 :=
  generatedIdsDistinct 0 _ (by intro m hm; fin_cases hm <;> exact ⟨rfl, rfl⟩)


/-- Claim C9: on a successful run the callback is invoked exactly once,
with the very record stored for display; on a failing run it is not
invoked at all. -/
theorem callbackOncePerSuccess (raw : List Char) :
    (∀ t, (analyzeProject raw).estimation = some t →
      (analyzeProject raw).callbackCalls = [t]) ∧
    ((analyzeProject raw).estimation = none →
      (analyzeProject raw).callbackCalls = []) := by
  unfold analyzeProject
  cases runEstimation raw with
  | error t => exact ⟨fun t' ht' => by simp at ht', fun _ => rfl⟩
  | ok u =>
    refine ⟨fun t' ht' => ?_, fun hn => by simp at hn⟩
    simp only at ht' ⊢
    rw [← Option.some.inj ht']

/-- Witness for C9: a raw response whose run succeeds, with the callback
receiving exactly the stored record. -/
theorem callbackOncePerSuccess_spot :
    (analyzeProject "\x7b\"materials\":[],\"labor\":[]\x7d".toList).callbackCalls =
      [{ projectName := none, length := none, width := none, height := none,
         materials := [], labor := [] }] :=
  (callbackOncePerSuccess _).1 _ (by rfl)

/-- Counterexample to claim C5: on a raw response whose candidate is
malformed JSON (unterminated string), the parse step does yield the null
outcome, but the message reaching the user is the TypeError message of
the null property read — a TypeError is an `Error` instance, so the
handler at line 117 shows its own message — not the generic fallback
"Failed to analyze project. Please try again.". -/
theorem fallbackNotShown_cx :
    extractAndParseJSON "\x7b\"a\": \"b\x7d".toList = Except.ok none ∧
    (analyzeProject "\x7b\"a\": \"b\x7d".toList).error =
      nullReadMsg "projectName".toList ∧
    (analyzeProject "\x7b\"a\": \"b\x7d".toList).error ≠ fallbackMsg :=
  ⟨rfl, rfl, by decide⟩

/-- Claim C5 as amended: when the parse step yields the null outcome, the
mapping step's first property read on `null` throws a TypeError, and the
error shown to the user is that TypeError's own message (the null read of
`projectName`, the first field evaluated), while no estimate is stored
and the callback is not invoked; the generic fallback message is reserved
for thrown values that are not `Error` instances. -/
theorem fallbackNotShown_amended (raw : List Char)
    (h : extractAndParseJSON raw = Except.ok none) :
    (analyzeProject raw).error = nullReadMsg "projectName".toList ∧
    (analyzeProject raw).estimation = none ∧
    (analyzeProject raw).callbackCalls = [] := by
  unfold analyzeProject runEstimation
  rw [h]
  exact ⟨rfl, rfl, rfl⟩

/-- Witness for the amended C5 at the unterminated-string response. -/
theorem fallbackNotShown_amended_spot :
    (analyzeProject "\x7b\"a\": \"b\x7d".toList).error =
      nullReadMsg "projectName".toList :=
  (fallbackNotShown_amended _ (by rfl)).1

/-- Text containing two adjacent slashes somewhere. -/
def hasDoubleSlash : List Char → Bool
  | [] => false
  | [_] => false
  | c :: d :: cs => (c = '/' && d = '/') || hasDoubleSlash (d :: cs)

theorem hasDoubleSlash_cons_false {y : Char} {l : List Char}
    (h : hasDoubleSlash (y :: l) = false) : hasDoubleSlash l = false := by
  cases l with
  | nil => rfl
  | cons z zs =>
    simp only [hasDoubleSlash, Bool.or_eq_false_iff] at h
    exact h.2

theorem stripCommentsGo_true_of_no_newline {b : List Char} (hb : '\n' ∉ b) :
    stripCommentsGo true b = [] := by
  induction b with
  | nil => rfl
  | cons c cs ih =>
    rw [List.mem_cons, not_or] at hb
    simp only [stripCommentsGo, if_neg (Ne.symm hb.1)]
    exact ih hb.2

theorem stripInsideString : ∀ (a b : List Char),
    hasDoubleSlash (a ++ ['/']) = false → '\n' ∉ b →
    stripCommentsGo false (a ++ '/' :: '/' :: b) = a
  | [], b, _, hb => by
    simp only [List.nil_append, stripCommentsGo, if_pos rfl, if_true,
      stripCommentsGo_true_of_no_newline hb]
  | [x], b, ha, hb => by
    have hx : ¬ x = '/' := by
      intro he
      rw [he] at ha
      exact absurd ha (by decide)
    simp only [List.cons_append, List.nil_append, stripCommentsGo, if_neg hx,
      if_pos rfl, if_true, stripCommentsGo_true_of_no_newline hb]
  | x :: y :: a, b, ha, hb => by
    rw [List.cons_append, List.cons_append] at ha ⊢
    by_cases hx : x = '/'
    · have hy : ¬ y = '/' := by
        intro he
        rw [hx, he] at ha
        simp [hasDoubleSlash] at ha
      have ha1 : hasDoubleSlash (y :: (a ++ ['/'])) = false := by
        simp only [hasDoubleSlash, Bool.or_eq_false_iff] at ha
        exact ha.2
      have ha2 : hasDoubleSlash (a ++ ['/']) = false :=
        hasDoubleSlash_cons_false ha1
      simp only [stripCommentsGo, if_pos hx, if_neg hy]
      rw [stripInsideString a b ha2 hb]
    · have ha1 : hasDoubleSlash (y :: (a ++ ['/'])) = false := by
        simp only [hasDoubleSlash, Bool.or_eq_false_iff] at ha
        exact ha.2
      have hrec := stripInsideString (y :: a) b ha1 hb
      rw [List.cons_append] at hrec
      simp only [stripCommentsGo, if_neg hx]
      rw [hrec]

/-- Claim C10: the comment strip is not confined to text outside JSON
string literals.  First conjunct: in general, everything from the first
two adjacent slashes to the end of the line is deleted, wherever those
slashes occur.  Second and third conjuncts: a syntactically valid
candidate whose string value holds a URL parses before repair but fails
to parse after it. -/
theorem repairCorruptsStrings :
    (∀ a b, hasDoubleSlash (a ++ ['/']) = false → '\n' ∉ b →
      stripLineComments (a ++ '/' :: '/' :: b) = a) ∧
    jsonParse "\x7b\"u\": \"http://x\"\x7d".toList =
      some (Json.obj [("u".toList, Json.str "http://x".toList)]) ∧
    jsonParse (cleanJSON "\x7b\"u\": \"http://x\"\x7d".toList) = none := by
  refine ⟨?_, rfl, rfl⟩
  intro a b ha hb
  exact stripInsideString a b ha hb

/-- Witness for C10's general conjunct: the URL candidate is truncated at
its embedded double slash. -/
theorem repairCorruptsStrings_spot :
    stripLineComments ("\x7b\"u\": \"http:".toList ++
        '/' :: '/' :: "x\"\x7d".toList) = "\x7b\"u\": \"http:".toList :=
  repairCorruptsStrings.1 _ _ (by decide) (by decide)
